import Mathlib

/-!
Verification of the `univ_eloued_scraper` repository (a Python web scraper)
against its natural-language specification.

The Python source is shallowly embedded: pure text-processing functions are
translated to Lean functions over `List Char` / `String`, the parsed HTML
document (produced by BeautifulSoup in the source) is modelled as a tree of
element and text nodes, and the crawl orchestrator `scrape_activities` is
modelled as an explicit state machine parameterised by a fetch oracle
(`String -> Option` of a parsed page), so that network failure paths are
explicit.  Library calls made by the source (`re.sub`, `re.search`,
`datetime.strptime`, `datetime.fromisoformat`, `urllib.parse.urljoin`,
BeautifulSoup traversals) are modelled from their documented behaviour,
restricted where noted to the input shapes the scraper feeds them.
-/

/-! ## Characters and Python whitespace -/

/-- The characters Python treats as whitespace: matched by the regex class
`\s` on `str` patterns and stripped by `str.strip()`.  Covers the ASCII
whitespace and control range plus the Unicode space separators. -/
def isPySpace (c : Char) : Bool :=
  c = ' ' || c = '\t' || c = '\n' || c = '\x0b' || c = '\x0c' || c = '\r' ||
  c = '\x1c' || c = '\x1d' || c = '\x1e' || c = '\x1f' ||
  c = '\x85' || c = '\xa0' || c = '\u1680' ||
  ('\u2000' ≤ c && c ≤ '\u200a') ||
  c = '\u2028' || c = '\u2029' || c = '\u202f' || c = '\u205f' || c = '\u3000'

/-- The character class `[\n\r\t]` of the first substitution in `clean_text`. -/
def isNRT (c : Char) : Bool :=
  c = '\n' || c = '\r' || c = '\t'

/-- Model of `re.sub(p+, ' ', s)` for a character class `p`: every maximal
run of characters satisfying `p` is replaced by a single space.  The boolean
flag records whether the previous character belonged to a run (in which case
the current `p`-character is absorbed into the already-emitted space). -/
def collapseRuns (p : Char → Bool) : List Char → Bool → List Char
  | [], _ => []
  | c :: rest, inRun =>
    if p c then
      if inRun then collapseRuns p rest true
      else ' ' :: collapseRuns p rest true
    else c :: collapseRuns p rest false

/-- Drop trailing characters satisfying `p` (the right half of `str.strip()`). -/
def dropTrailing (p : Char → Bool) (l : List Char) : List Char :=
  (l.reverse.dropWhile p).reverse

/-- Model of Python `str.strip()`: remove leading and trailing whitespace. -/
def stripChars (p : Char → Bool) (l : List Char) : List Char :=
  dropTrailing p (l.dropWhile p)

/-- Character-level core of `clean_text` (src/univ_eloued_scraper.py:18):
`re.sub` of `[\n\r\t]+` to one space, then `re.sub` of `\s+` to one space,
then `strip()`. -/
def cleanChars (l : List Char) : List Char :=
  stripChars isPySpace (collapseRuns isPySpace (collapseRuns isNRT l false) false)

/-- Model of `clean_text` (src/univ_eloued_scraper.py:18).  The argument is an
`Option String` because Python callers pass `None` as well as strings; the
`if not text` guard returns the empty string on both `None` and `""`. -/
def clean_text (text : Option String) : String :=
  match text with
  | none => ""
  | some s => if s = "" then "" else String.mk (cleanChars s.data)

/-- String-level convenience wrapper used where the Python source passes a
string that is known to be a `str` (e.g. results of `get_text()`). -/
def clean_textS (s : String) : String :=
  clean_text (some s)

/-! ## Calendar dates and the `datetime` constructor -/

/-- A parsed calendar date, the result type of the embedded date strategies. -/
structure PyDate where
  year : Nat
  month : Nat
  day : Nat
deriving DecidableEq, Repr

/-- Gregorian leap-year rule, as used by Python `datetime`. -/
def isLeap (y : Nat) : Bool :=
  y % 4 = 0 && (y % 100 ≠ 0 || y % 400 = 0)

/-- Number of days in a month, as validated by the `datetime` constructor. -/
def daysInMonth (y m : Nat) : Nat :=
  if m = 2 then (if isLeap y then 29 else 28)
  else if m = 4 || m = 6 || m = 9 || m = 11 then 30
  else 31

/-- Validity check performed by the `datetime.datetime` constructor:
`MINYEAR = 1 <= year <= MAXYEAR = 9999`, `1 <= month <= 12`,
`1 <= day <= days in that month`. -/
def validDate (y m d : Nat) : Bool :=
  1 ≤ y && y ≤ 9999 && 1 ≤ m && m ≤ 12 && 1 ≤ d && d ≤ daysInMonth y m

/-- Model of constructing `datetime.datetime(year, month, day)`: the Python
constructor raises `ValueError` on an invalid combination, which every caller
in `parse_date_string` turns into a failed strategy; hence `Option`. -/
def mkValidDate (y m d : Nat) : Option PyDate :=
  if validDate y m d then some (PyDate.mk y m d) else none

/-! ## Digits, ASCII case, rendering -/

/-- ASCII decimal digit test (regex `\d` on the inputs at hand). -/
def isDigitC (c : Char) : Bool :=
  '0' ≤ c && c ≤ '9'

/-- ASCII letter test (regex class `[A-Za-z]`). -/
def isAsciiAlpha (c : Char) : Bool :=
  ('a' ≤ c && c ≤ 'z') || ('A' ≤ c && c ≤ 'Z')

/-- Value of a decimal digit character. -/
def digitVal (c : Char) : Nat :=
  c.toNat - 48

/-- Decimal value of a digit string (`int(...)` on a digit-only string). -/
def digitsToNat (l : List Char) : Nat :=
  l.foldl (fun acc c => acc * 10 + digitVal c) 0

/-- Lowercase an ASCII letter, identity elsewhere (`str.lower()` on the
ASCII portion relevant to month names and format literals). -/
def lowerChar (c : Char) : Char :=
  if 'A' ≤ c && c ≤ 'Z' then Char.ofNat (c.toNat + 32) else c

/-- The decimal digit character for `n < 10`. -/
def digitChar10 (n : Nat) : Char :=
  Char.ofNat (48 + n)

/-- Two-digit zero-padded rendering (strftime `%m` / `%d`). -/
def twoDigits (n : Nat) : List Char :=
  [digitChar10 (n / 10 % 10), digitChar10 (n % 10)]

/-- Rendering of strftime `%Y` under glibc: the year is printed without
zero padding (years below 1000 print with fewer than four digits). -/
def yearChars (y : Nat) : List Char :=
  if 1000 ≤ y then
    [digitChar10 (y / 1000 % 10), digitChar10 (y / 100 % 10),
     digitChar10 (y / 10 % 10), digitChar10 (y % 10)]
  else if 100 ≤ y then
    [digitChar10 (y / 100 % 10), digitChar10 (y / 10 % 10), digitChar10 (y % 10)]
  else if 10 ≤ y then
    [digitChar10 (y / 10 % 10), digitChar10 (y % 10)]
  else
    [digitChar10 (y % 10)]

/-- Model of `dt.strftime(.%Y-%m-%d.)`: the canonical serialization every
strategy of `parse_date_string` returns on success. -/
def fmtDate (d : PyDate) : String :=
  String.mk (yearChars d.year ++ '-' :: twoDigits d.month ++ '-' :: twoDigits d.day)

/-! ## Month-name tables -/

/-- Full English month names in the order `datetime.strptime` tries them for
the `%B` directive (matching is case-insensitive; the table is lowercased). -/
def monthNamesFull : List (List Char × Nat) :=
  [("january".data, 1), ("february".data, 2), ("march".data, 3), ("april".data, 4),
   ("may".data, 5), ("june".data, 6), ("july".data, 7), ("august".data, 8),
   ("september".data, 9), ("october".data, 10), ("november".data, 11), ("december".data, 12)]

/-- Abbreviated English month names for the `%b` directive (lowercased). -/
def monthNamesAbbr : List (List Char × Nat) :=
  [("jan".data, 1), ("feb".data, 2), ("mar".data, 3), ("apr".data, 4),
   ("may".data, 5), ("jun".data, 6), ("jul".data, 7), ("aug".data, 8),
   ("sep".data, 9), ("oct".data, 10), ("nov".data, 11), ("dec".data, 12)]

/-- The `arabic_months` dictionary of `parse_date_string`
(src/univ_eloued_scraper.py:55), in insertion order -- the same order in
which `'|'.join(arabic_months.keys())` places the regex alternatives. -/
def arabicMonths : List (List Char × Nat) :=
  [("يناير".data, 1), ("فبراير".data, 2), ("مارس".data, 3), ("أبريل".data, 4),
   ("إبريل".data, 4), ("ماي".data, 5), ("مايو".data, 5), ("يونيو".data, 6),
   ("يوليو".data, 7), ("أغسطس".data, 8), ("اغسطس".data, 8), ("سبتمبر".data, 9),
   ("أكتوبر".data, 10), ("اكتوبر".data, 10), ("نوفمبر".data, 11), ("ديسمبر".data, 12),
   ("دجمبر".data, 12)]

/-! ## A model of `datetime.strptime` for the formats the scraper uses -/

/-- Tokens of a `strptime` format string.  `ws` stands for a whitespace
character in the format, which `_strptime` compiles to the regex `\s+`. -/
inductive FmtTok where
  | monthFull
  | monthAbbr
  | dayNum
  | monthNum
  | year4
  | ws
  | lit (c : Char)
deriving DecidableEq, Repr

/-- Tokenize a `strptime` format string: `%B %b %d %m %Y` directives,
whitespace, and literal characters. -/
def fmtToks : List Char → List FmtTok
  | [] => []
  | '%' :: 'B' :: rest => FmtTok.monthFull :: fmtToks rest
  | '%' :: 'b' :: rest => FmtTok.monthAbbr :: fmtToks rest
  | '%' :: 'd' :: rest => FmtTok.dayNum :: fmtToks rest
  | '%' :: 'm' :: rest => FmtTok.monthNum :: fmtToks rest
  | '%' :: 'Y' :: rest => FmtTok.year4 :: fmtToks rest
  | c :: rest => (if isPySpace c then FmtTok.ws else FmtTok.lit c) :: fmtToks rest

/-- Fields accumulated while matching a format (only the ones the scraper's
formats use).  `_strptime` defaults a missing year to 1900 and missing
month/day to 1. -/
structure SFields where
  fy : Option Nat
  fm : Option Nat
  fd : Option Nat
deriving Repr

/-- Does `pre` occur as a prefix of `l`?  On success return the rest. -/
def dropPrefix? : List Char → List Char → Option (List Char)
  | [], l => some l
  | _, [] => none
  | p :: ps, c :: cs => if p = c then dropPrefix? ps cs else none

/-- Try the month-name alternatives in table order against a prefix of the
(lowercased) input, as the compiled `(name1|name2|...)` group does. -/
def matchMonthName (table : List (List Char × Nat)) (l : List Char) :
    Option (Nat × List Char) :=
  match table with
  | [] => none
  | (name, num) :: rest =>
    match dropPrefix? name l with
    | some r => some (num, r)
    | none => matchMonthName rest l

/-- Match the token list of a format against the whole (lowercased) input,
the way `_strptime` applies its compiled regex anchored at both ends.
Numeric day/month directives compile to `\d{1,2}`: two digits are tried
first, then one (regex backtracking); `%Y` is exactly four digits; a
whitespace token consumes one or more whitespace characters. -/
def matchFmt : List FmtTok → List Char → SFields → Option SFields
  | [], l, f => if l = [] then some f else none
  | FmtTok.monthFull :: ts, l, f =>
    (matchMonthName monthNamesFull l).bind fun (num, r) =>
      matchFmt ts r { f with fm := some num }
  | FmtTok.monthAbbr :: ts, l, f =>
    (matchMonthName monthNamesAbbr l).bind fun (num, r) =>
      matchFmt ts r { f with fm := some num }
  | FmtTok.dayNum :: ts, l, f =>
    (match l with
     | c1 :: c2 :: r =>
       if isDigitC c1 then
         if isDigitC c2 then
           match matchFmt ts r { f with fd := some (digitsToNat [c1, c2]) } with
           | some res => some res
           | none => matchFmt ts (c2 :: r) { f with fd := some (digitVal c1) }
         else matchFmt ts (c2 :: r) { f with fd := some (digitVal c1) }
       else none
     | [c1] =>
       if isDigitC c1 then matchFmt ts [] { f with fd := some (digitVal c1) } else none
     | [] => none)
  | FmtTok.monthNum :: ts, l, f =>
    (match l with
     | c1 :: c2 :: r =>
       if isDigitC c1 then
         if isDigitC c2 then
           match matchFmt ts r { f with fm := some (digitsToNat [c1, c2]) } with
           | some res => some res
           | none => matchFmt ts (c2 :: r) { f with fm := some (digitVal c1) }
         else matchFmt ts (c2 :: r) { f with fm := some (digitVal c1) }
       else none
     | [c1] =>
       if isDigitC c1 then matchFmt ts [] { f with fm := some (digitVal c1) } else none
     | [] => none)
  | FmtTok.year4 :: ts, l, f =>
    (match l with
     | c1 :: c2 :: c3 :: c4 :: r =>
       if isDigitC c1 && isDigitC c2 && isDigitC c3 && isDigitC c4 then
         matchFmt ts r { f with fy := some (digitsToNat [c1, c2, c3, c4]) }
       else none
     | _ => none)
  | FmtTok.ws :: ts, l, f =>
    (match l with
     | c :: r => if isPySpace c then matchFmt ts (r.dropWhile isPySpace) f else none
     | [] => none)
  | FmtTok.lit c :: ts, l, f =>
    (match l with
     | c1 :: r => if c1 = c then matchFmt ts r f else none
     | [] => none)

/-- Model of `datetime.strptime(s, fmt)` restricted to the field directives
above, returning the raw `(year, month, day)` before calendar validation.
`_strptime` compiles the format to a case-insensitive regex, so the input is
lowercased before matching. -/
def strptimeRaw (fmt : String) (l : List Char) : Option (Nat × Nat × Nat) :=
  (matchFmt (fmtToks fmt.data) (l.map lowerChar) (SFields.mk none none none)).map
    fun f => (f.fy.getD 1900, f.fm.getD 1, f.fd.getD 1)

/-- `datetime.strptime` followed by the `datetime` constructor validation:
an invalid calendar combination raises inside `strptime`, which the caller
treats as a failed format. -/
def strptimeDate (fmt : String) (l : List Char) : Option PyDate :=
  (strptimeRaw fmt l).bind fun (y, m, d) => mkValidDate y m d

/-! ## A model of `datetime.fromisoformat` -/

/-- Read exactly `n` decimal digits, returning their value and the rest. -/
def readDigits : Nat → List Char → Option (Nat × List Char)
  | 0, l => some (0, l)
  | n + 1, c :: r =>
    if isDigitC c then
      (readDigits n r).bind fun (v, rest) => some (digitVal c * 10 ^ n + v, rest)
    else none
  | _ + 1, [] => none

/-- One or more decimal digits (a fractional-seconds field); returns the rest. -/
def skipDigits1 : List Char → Option (List Char)
  | c :: r => if isDigitC c then some (r.dropWhile isDigitC) else none
  | [] => none

/-- Seconds with optional fraction: `SS[.ffff...]` (also `,` as the
fraction separator). -/
def isoSecFrac (l : List Char) : Option (List Char) :=
  (readDigits 2 l).bind fun (ss, r) =>
    if ss ≤ 59 then
      match r with
      | '.' :: r2 => skipDigits1 r2
      | ',' :: r2 => skipDigits1 r2
      | _ => some r
    else none

/-- UTC-offset part of an ISO time: `Z`, or a sign followed by
`HH[:MM[:SS[.ffff]]]` (or `HHMM`), each component range-checked the way
constructing the `timezone` does. -/
def isoOffsetOk (l : List Char) : Bool :=
  match l with
  | [] => true
  | ['Z'] => true
  | sgn :: r =>
    if sgn = '+' || sgn = '-' then
      match readDigits 2 r with
      | some (hh, r2) =>
        if hh ≤ 23 then
          match r2 with
          | [] => true
          | ':' :: r3 =>
            (match readDigits 2 r3 with
             | some (mm, r4) =>
               if mm ≤ 59 then
                 match r4 with
                 | [] => true
                 | ':' :: r5 => (isoSecFrac r5).elim false (fun rest => rest = [])
                 | _ => false
               else false
             | none => false)
          | _ =>
            (match readDigits 2 r2 with
             | some (mm, r4) => mm ≤ 59 && r4 = []
             | none => false)
        else false
      | none => false
    else false

/-- Time-of-day part of an ISO datetime: `HH[:MM[:SS[.ffff]]]` followed by an
optional UTC offset. -/
def isoTimeOk (l : List Char) : Bool :=
  match readDigits 2 l with
  | some (hh, r) =>
    if hh ≤ 23 then
      match r with
      | ':' :: r2 =>
        (match readDigits 2 r2 with
         | some (mm, r3) =>
           if mm ≤ 59 then
             match r3 with
             | ':' :: r4 =>
               (match (readDigits 2 r4).bind fun (ss, r5) =>
                   if ss ≤ 59 then
                     match r5 with
                     | '.' :: r6 => skipDigits1 r6
                     | ',' :: r6 => skipDigits1 r6
                     | _ => some r5
                   else none with
                | some rest => isoOffsetOk rest
                | none => false)
             | _ => isoOffsetOk r3
           else false
         | none => false)
      | _ => isoOffsetOk r
    else false
  | none => false

/-- Model of `datetime.fromisoformat` on hierarchical extended-format input:
`YYYY-MM-DD`, optionally followed by a single separator character and a
time-of-day with optional UTC offset (the scraper pre-substitutes `Z` with
`+00:00`).  Ordinal/week-date and basic `YYYYMMDD` forms are outside the
shapes the scraper feeds it and are not modelled.  The raw triple is
returned; the calendar validation of the `datetime` constructor is applied
by the caller via `mkValidDate`. -/
def isoRaw (l : List Char) : Option (Nat × Nat × Nat) :=
  (readDigits 4 l).bind fun (y, r1) =>
    match r1 with
    | '-' :: r2 =>
      (readDigits 2 r2).bind fun (m, r3) =>
        match r3 with
        | '-' :: r4 =>
          (readDigits 2 r4).bind fun (d, r5) =>
            match r5 with
            | [] => some (y, m, d)
            | _ :: t => if isoTimeOk t then some (y, m, d) else none
        | _ => none
    | _ => none

/-- `datetime.fromisoformat` including calendar validation. -/
def fromisoformatDate (l : List Char) : Option PyDate :=
  (isoRaw l).bind fun (y, m, d) => mkValidDate y m d

/-- Model of `s.replace('Z', '+00:00')`. -/
def replaceZ (l : List Char) : List Char :=
  l.foldr (fun c acc => if c = 'Z' then '+' :: '0' :: '0' :: ':' :: '0' :: '0' :: acc else c :: acc) []

/-! ## The two `re.search` patterns of `parse_date_string` -/

/-- The separator class `[,\s]` between day and year in the Arabic pattern. -/
def isSepC (c : Char) : Bool :=
  c = ',' || isPySpace c

/-- Match `[,\s]+(\d{4})` at the head of `l`: a non-empty greedy run of
separators followed by four digits.  Returns the matched characters and the
year value. -/
def sepYear (l : List Char) : Option (List Char × Nat) :=
  match l with
  | c :: r =>
    if isSepC c then
      let run := c :: r.takeWhile isSepC
      let rest := r.dropWhile isSepC
      (readDigits 4 rest).map fun (y, _) => (run ++ rest.take 4, y)
    else none
  | [] => none

/-- Match `\s+(\d{1,2})[,\s]+(\d{4})` at the head of `l` (the part of the
Arabic pattern after the month name).  The day group is greedy with regex
backtracking: two digits are tried first, then one.  Returns the matched
characters, the day and the year. -/
def arabTail (l : List Char) : Option (List Char × Nat × Nat) :=
  match l with
  | c :: r =>
    if isPySpace c then
      let wsRun := c :: r.takeWhile isPySpace
      let r1 := r.dropWhile isPySpace
      match r1 with
      | d1 :: r2 =>
        if isDigitC d1 then
          match r2 with
          | d2 :: r3 =>
            if isDigitC d2 then
              match sepYear r3 with
              | some (m2, yr) => some (wsRun ++ d1 :: d2 :: m2, (digitsToNat [d1, d2], yr))
              | none =>
                (sepYear (d2 :: r3)).map fun (m2, yr) =>
                  (wsRun ++ d1 :: m2, (digitVal d1, yr))
            else
              (sepYear (d2 :: r3)).map fun (m2, yr) =>
                (wsRun ++ d1 :: m2, (digitVal d1, yr))
          | [] => none
        else none
      | [] => none
    else none
  | [] => none

/-- A successful match of the Arabic date pattern: the matched substring
(`group(0)`), the month number from the `arabic_months` table, the day and
the year. -/
structure ArabMatch where
  matched : List Char
  mnum : Nat
  day : Nat
  year : Nat
deriving Repr

/-- Try the Arabic month-name alternation at one position, in table order;
a name whose tail fails to match is backtracked and the next alternative is
tried, as the regex engine does. -/
def arabAlts : List (List Char × Nat) → List Char → Option ArabMatch
  | [], _ => none
  | (name, num) :: rest, l =>
    match dropPrefix? name l with
    | some r =>
      (match arabTail r with
       | some (tl, d, y) => some (ArabMatch.mk (name ++ tl) num d y)
       | none => arabAlts rest l)
    | none => arabAlts rest l

/-- Model of `re.search` for the Arabic pattern
`(<month alternation>)\s+(\d{1,2})[,\s]+(\d{4})`: scan positions left to
right, returning the leftmost match. -/
def arabSearch : List Char → Option ArabMatch
  | [] => none
  | c :: r =>
    match arabAlts arabicMonths (c :: r) with
    | some m => some m
    | none => arabSearch r

/-- Match the English fallback pattern `([A-Za-z]+)\s+(\d{1,2}),\s*(\d{4})`
at the head of `l`, returning `group(0)`. -/
def engMatchAt (l : List Char) : Option (List Char) :=
  match l with
  | c :: _ =>
    if isAsciiAlpha c then
      let word := l.takeWhile isAsciiAlpha
      let r1 := l.dropWhile isAsciiAlpha
      match r1 with
      | c2 :: r2 =>
        if isPySpace c2 then
          let wsRun := c2 :: r2.takeWhile isPySpace
          let r3 := r2.dropWhile isPySpace
          match r3 with
          | d1 :: r4 =>
            if isDigitC d1 then
              (match r4 with
               | d2 :: r5 =>
                 if isDigitC d2 then
                   match engComma (d1 :: d2 :: []) r5 word wsRun with
                   | some g0 => some g0
                   | none => engComma [d1] (d2 :: r5) word wsRun
                 else engComma [d1] (d2 :: r5) word wsRun
               | [] => none)
            else none
          | [] => none
        else none
      | [] => none
    else none
  | [] => none
where
  /-- The `,\s*(\d{4})` tail after the day digits. -/
  engComma (dayChars : List Char) (l : List Char) (word wsRun : List Char) :
      Option (List Char) :=
    match l with
    | ',' :: r =>
      let spRun := r.takeWhile isPySpace
      let r2 := r.dropWhile isPySpace
      (readDigits 4 r2).map fun _ =>
        word ++ wsRun ++ dayChars ++ ',' :: spRun ++ r2.take 4
    | _ => none

/-- Model of `re.search` for the English fallback pattern: leftmost match,
returning `group(0)`. -/
def engSearch : List Char → Option (List Char)
  | [] => none
  | c :: r =>
    match engMatchAt (c :: r) with
    | some g0 => some g0
    | none => engSearch r

/-! ## `parse_date_string` -/

/-- The fixed format list of `parse_date_string`
(src/univ_eloued_scraper.py:46). -/
def formatStrings : List String :=
  ["%B %d, %Y", "%b %d, %Y", "%d %B %Y", "%d %b %Y", "%Y-%m-%d", "%d/%m/%Y", "%d-%m-%Y"]

/-- Try the explicit formats in order; a `strptime` failure (pattern or
calendar validation) falls through to the next format. -/
def tryFormats : List String → List Char → Option PyDate
  | [], _ => none
  | f :: fs, l =>
    match strptimeDate f l with
    | some d => some d
    | none => tryFormats fs l

/-- The strategy cascade of `parse_date_string` on the stripped input:
ISO parse (with `Z` pre-substituted), then the format list, then the Arabic
month pattern, then the English month fallback on `group(0)`.  An Arabic
match with an invalid calendar date falls through to the English fallback,
mirroring the `try/except: pass` in the source. -/
def parseDateStrategies (s : List Char) : Option PyDate :=
  match fromisoformatDate (replaceZ s) with
  | some d => some d
  | none =>
    match tryFormats formatStrings s with
    | some d => some d
    | none =>
      match (arabSearch s).bind (fun m => mkValidDate m.year m.mnum m.day) with
      | some d => some d
      | none =>
        match engSearch s with
        | some g0 =>
          (match strptimeDate "%B %d, %Y" g0 with
           | some d => some d
           | none => strptimeDate "%b %d, %Y" g0)
        | none => none

/-- The core of `parse_date_string` on a non-empty input: `strip()` then
the strategy cascade. -/
def parseDateCore (l : List Char) : Option PyDate :=
  parseDateStrategies (stripChars isPySpace l)

/-- Model of `parse_date_string` (src/univ_eloued_scraper.py:30).  The
argument is an `Option String` since Python callers may pass `None`; the
`if not s` guard returns `None` on both `None` and the empty string.  A
successful parse is rendered through `strftime`. -/
def parse_date_string (s : Option String) : Option String :=
  match s with
  | none => none
  | some str => if str = "" then none else (parseDateCore str.data).map fmtDate

/-! ## The parsed HTML document

BeautifulSoup's parsed page is modelled as a forest of nodes: an element
node carries its tag name, attribute list and children; a text node carries
a string.  Parsing an HTML string (done leniently by `html.parser` in the
source) is outside the extraction semantics: the embedding works directly on
the parsed tree, which is the value every extraction function traverses. -/

mutual
inductive HNode where
  | text (s : String)
  | elem (tag : String) (attrs : List (String × String)) (children : HForest)
inductive HForest where
  | nil
  | cons (n : HNode) (f : HForest)
end

/-- Build a forest from a list of nodes (for readable page literals). -/
def toForest : List HNode → HForest
  | [] => HForest.nil
  | n :: rest => HForest.cons n (toForest rest)

/-- Attribute lookup on an element (`tag.get(key)` / `tag[key]`). -/
def getAttr (n : HNode) (k : String) : Option String :=
  match n with
  | .text _ => none
  | .elem _ attrs _ => lookupA attrs
where
  lookupA : List (String × String) → Option String
    | [] => none
    | (k2, v) :: rest => if k2 = k then some v else lookupA rest

/-- The children forest of a node (empty for text nodes). -/
def childrenOf : HNode → HForest
  | .text _ => HForest.nil
  | .elem _ _ c => c

/-- Is `n` an element with tag name `t`? -/
def isElemTag (t : String) (n : HNode) : Bool :=
  match n with
  | .elem tg _ _ => tg = t
  | .text _ => false

mutual
/-- All nodes of the subtree rooted at `n` (itself included) satisfying `p`,
in document order: the traversal behind `soup.find_all`. -/
def findAllN (p : HNode → Bool) : HNode → List HNode
  | .text s => if p (.text s) then [HNode.text s] else []
  | .elem t a c =>
    (if p (.elem t a c) then [HNode.elem t a c] else []) ++ findAllF p c
/-- All matching nodes of a forest in document order. -/
def findAllF (p : HNode → Bool) : HForest → List HNode
  | .nil => []
  | .cons n f => findAllN p n ++ findAllF p f
end

/-- `soup.find(...)`: the first matching node in document order. -/
def findFirst (p : HNode → Bool) (f : HForest) : Option HNode :=
  (findAllF p f).head?

mutual
/-- Concatenated text of a subtree: `tag.get_text()` with default separator. -/
def textN : HNode → List Char
  | .text s => s.data
  | .elem _ _ c => textF c
/-- Concatenated text of a forest. -/
def textF : HForest → List Char
  | .nil => []
  | .cons n f => textN n ++ textF f
end

mutual
/-- `tag.get_text(strip=True)`: each text fragment is stripped before the
fragments are concatenated. -/
def textStripN : HNode → List Char
  | .text s => stripChars isPySpace s.data
  | .elem _ _ c => textStripF c
/-- Stripped concatenated text of a forest. -/
def textStripF : HForest → List Char
  | .nil => []
  | .cons n f => textStripN n ++ textStripF f
end

/-- BeautifulSoup's `tag.string`: a text child if it is the only child;
recursing through a lone element child; `None` otherwise. -/
def tagString : HNode → Option String
  | .text s => some s
  | .elem _ _ (.cons child .nil) => tagString child
  | .elem _ _ _ => none

/-- Split an attribute value on whitespace runs: how BeautifulSoup turns the
`class` attribute into a list of class tokens. -/
def splitWsAux : List Char → List Char → List (List Char)
  | [], acc => if acc.isEmpty then [] else [acc.reverse]
  | c :: r, acc =>
    if isPySpace c then
      (if acc.isEmpty then splitWsAux r [] else acc.reverse :: splitWsAux r [])
    else splitWsAux r (c :: acc)

/-- The whitespace-separated tokens of a string. -/
def splitWsL (l : List Char) : List (List Char) :=
  splitWsAux l []

/-- Does `pat` occur as a contiguous substring of `l` (an unanchored
`re.search` for a literal word)? -/
def containsSub (pat : List Char) : List Char → Bool
  | [] => pat.isEmpty
  | c :: r => pat.isPrefixOf (c :: r) || containsSub pat r

/-- Does the element carry attribute `k` whose token list contains `tok`?
BeautifulSoup matches a plain-string `class_` filter against each class
token of the element. -/
def classHasToken (tok : String) (n : HNode) : Bool :=
  match getAttr n "class" with
  | some cls => (splitWsL cls.data).any (fun t => t = tok.data)
  | none => false

/-- Does the element have attribute `k` equal to `v` (`find(tag, attrs=...)`
exact string matching)? -/
def attrEq (n : HNode) (k v : String) : Bool :=
  match getAttr n k with
  | some x => x = v
  | none => false

/-! ## `extract_event_date` -/

/-- The words of the class/id heuristic pattern
`re.compile(r'date|time|post-date|entry-date|تاريخ|نشر', re.I)`
(src/univ_eloued_scraper.py:121), lowercased as compiling with `re.I`
effectively does for the Latin words. -/
def dateClassWords : List (List Char) :=
  ["date".data, "time".data, "post-date".data, "entry-date".data,
   "تاريخ".data, "نشر".data]

/-- Does the date-word pattern match the element's `class` attribute?  Note
that the source passes the pattern as `class_=...` only: the `id` attribute
is never consulted.  BeautifulSoup runs the regex over each class token;
since the alternation is a set of literal words without anchors, a token
matches exactly when it contains one of the words (case-insensitively). -/
def hasDateClass (n : HNode) : Bool :=
  match getAttr n "class" with
  | some cls =>
    (splitWsL cls.data).any fun tok =>
      dateClassWords.any fun w => containsSub w (tok.map lowerChar)
  | none => false

/-- Strategy 1 of `extract_event_date` (src/univ_eloued_scraper.py:98): the
first `time` element; its `datetime` attribute if present and non-empty
(Python truthiness) and parseable, else the cleaned text inside the tag. -/
def timeTagStrategy (doc : HForest) : Option String :=
  match findFirst (isElemTag "time") doc with
  | none => none
  | some tt =>
    let fromAttr :=
      match getAttr tt "datetime" with
      | some a => if a ≠ "" then parse_date_string (some a) else none
      | none => none
    match fromAttr with
    | some p => some p
    | none => parse_date_string (some (clean_textS (String.mk (textN tt))))

/-- The meta tag names/properties probed by strategy 2
(src/univ_eloued_scraper.py:112). -/
def metaNames : List String :=
  ["article:published_time", "published_time", "date", "dcterms.date",
   "dc.date", "pubdate", "publication_date", "datePublished"]

/-- Strategy 2 of `extract_event_date`: for each name, the first `meta` with
that `property` (else with that `name`); if it has non-empty `content` that
parses, return it, else continue with the next name. -/
def metaLoop (doc : HForest) : List String → Option String
  | [] => none
  | nm :: rest =>
    let meta :=
      match findFirst (fun n => isElemTag "meta" n && attrEq n "property" nm) doc with
      | some m => some m
      | none => findFirst (fun n => isElemTag "meta" n && attrEq n "name" nm) doc
    match meta with
    | some m =>
      (match getAttr m "content" with
       | some c =>
         if c ≠ "" then
           match parse_date_string (some c) with
           | some p => some p
           | none => metaLoop doc rest
         else metaLoop doc rest
       | none => metaLoop doc rest)
    | none => metaLoop doc rest

/-- Strategy 3 of `extract_event_date`: walk the class-matched elements in
document order, returning the first whose cleaned text parses as a date. -/
def classLoop : List HNode → Option String
  | [] => none
  | el :: rest =>
    match parse_date_string (some (clean_textS (String.mk (textN el)))) with
    | some p => some p
    | none => classLoop rest

/-- The Arabic half of strategy 4: `re.search` of the hard-coded Arabic
month pattern over the page text, feeding `group(0)` back through
`parse_date_string`.  The hard-coded alternation lists the same names in
the same order as the `arabic_months` table. -/
def bodyArabic (bt : List Char) : Option String :=
  match arabSearch bt with
  | some m => parse_date_string (some (String.mk m.matched))
  | none => none

/-- Strategy 4 of `extract_event_date` (src/univ_eloued_scraper.py:128):
search the cleaned whole-page text for the English `Month day, year`
pattern, then for the Arabic month pattern; each match is fed back through
`parse_date_string` and a failed parse falls through. -/
def bodyStrategy (doc : HForest) : Option String :=
  let bt := (clean_textS (String.mk (textF doc))).data
  match engSearch bt with
  | some g0 =>
    (match parse_date_string (some (String.mk g0)) with
     | some p => some p
     | none => bodyArabic bt)
  | none => bodyArabic bt

/-- Model of `extract_event_date` (src/univ_eloued_scraper.py:91): the four
strategy groups in order, first success wins, `None` when all fail. -/
def extract_event_date (doc : HForest) : Option String :=
  match timeTagStrategy doc with
  | some p => some p
  | none =>
    match metaLoop doc metaNames with
    | some p => some p
    | none =>
      match classLoop (findAllF hasDateClass doc) with
      | some p => some p
      | none => bodyStrategy doc

/-! ## URL handling: `urlparse` / `urljoin`

Modelled from the documented behaviour of `urllib.parse` for hierarchical
`http(s)` URLs.  Dot-segment normalization, query strings and fragments are
outside the URL shapes exercised here and are not modelled. -/

/-- A character allowed in a URL scheme. -/
def isSchemeChar (c : Char) : Bool :=
  isAsciiAlpha c || isDigitC c || c = '+' || c = '-' || c = '.'

/-- Split `scheme://rest`, if the string has that shape. -/
def schemeSplit : List Char → Option (List Char × List Char)
  | [] => none
  | ':' :: '/' :: '/' :: rest => some ([], rest)
  | c :: r =>
    if isSchemeChar c then
      (schemeSplit r).map fun (s, rest) => (c :: s, rest)
    else none

/-- `urlparse(url).netloc`: the authority of an absolute URL, empty for a
relative reference. -/
def urlNetloc (url : String) : String :=
  match schemeSplit url.data with
  | some (_, rest) => String.mk (rest.takeWhile (fun c => c ≠ '/'))
  | none => ""

/-- The path prefix up to and including the last slash (how `urljoin` merges
a relative reference with the base path); `/` when the base has no path. -/
def dirName (p : List Char) : List Char :=
  let r := (p.reverse.dropWhile (fun c => c ≠ '/')).reverse
  if r.isEmpty then ['/'] else r

/-- Model of `urllib.parse.urljoin(base, url)` for the reference shapes the
scraper produces: empty reference, absolute URL, network-path (`//...`),
absolute path (`/...`) and plain relative path. -/
def urljoin (base url : String) : String :=
  if url = "" then base
  else
    match schemeSplit url.data with
    | some _ => url
    | none =>
      match schemeSplit base.data with
      | none => url
      | some (scheme, rest) =>
        let netloc := rest.takeWhile (fun c => c ≠ '/')
        let path := rest.dropWhile (fun c => c ≠ '/')
        match url.data with
        | '/' :: '/' :: _ => String.mk (scheme ++ ':' :: url.data)
        | '/' :: _ => String.mk (scheme ++ ':' :: '/' :: '/' :: netloc ++ url.data)
        | _ => String.mk (scheme ++ ':' :: '/' :: '/' :: netloc ++ dirName path ++ url.data)

/-- Model of `url.rstrip('/')`: drop every trailing slash. -/
def rstripSlash (s : String) : String :=
  String.mk (dropTrailing (fun c => c = '/') s.data)

/-! ## `extract_links` -/

/-- The `seen` set and ordered `links` list that `extract_links` threads
through its three strategies.  `seen` is a Python `set`; it is modelled as
the list of inserted URLs, queried by membership. -/
structure LinkAcc where
  seen : List String
  links : List String
deriving Repr

/-- Append `url` unless already seen (the `if url not in seen` guard used by
strategies 1 and 2). -/
def addIfNew (st : LinkAcc) (url : String) : LinkAcc :=
  if st.seen.contains url then st
  else LinkAcc.mk (url :: st.seen) (st.links ++ [url])

/-- An anchor element carrying an `href` attribute (`find('a', href=True)`). -/
def isHrefAnchor (n : HNode) : Bool :=
  isElemTag "a" n && (getAttr n "href").isSome

/-- Strategy 1 candidates: for each `article` element in document order, the
resolved URL of its first contained anchor with an `href`. -/
def strategy1Urls (doc : HForest) (base : String) : List String :=
  (findAllF (isElemTag "article") doc).filterMap fun a =>
    (findFirst isHrefAnchor (childrenOf a)).bind fun link =>
      (getAttr link "href").map fun h => urljoin base h

/-- A heading element of level 1 to 4. -/
def isHeading (n : HNode) : Bool :=
  isElemTag "h1" n || isElemTag "h2" n || isElemTag "h3" n || isElemTag "h4" n

/-- Strategy 2 candidates: the first anchor inside each `h1`-`h4`. -/
def strategy2Urls (doc : HForest) (base : String) : List String :=
  (findAllF isHeading doc).filterMap fun hd =>
    (findFirst isHrefAnchor (childrenOf hd)).bind fun link =>
      (getAttr link "href").map fun h => urljoin base h

/-- Accumulator state after strategy 1 of `extract_links`. -/
def stage1 (doc : HForest) (base : String) : LinkAcc :=
  (strategy1Urls doc base).foldl addIfNew (LinkAcc.mk [] [])

/-- Accumulator state after strategies 1 and 2 of `extract_links`. -/
def stage2 (doc : HForest) (base : String) : LinkAcc :=
  (strategy2Urls doc base).foldl addIfNew (stage1 doc base)

/-- All resolved anchor URLs on the page, in document order (the candidate
stream of strategy 3). -/
def anchorUrls (doc : HForest) (base : String) : List String :=
  (findAllF isHrefAnchor doc).filterMap fun link =>
    (getAttr link "href").map fun h => urljoin base h

/-- The strategy 3 step (src/univ_eloued_scraper.py:193): keep a same-site
URL (netloc suffix match against the base domain) that is not yet seen,
unless it equals the base URL after trailing-slash normalization. -/
def addSameSite (base domain : String) (st : LinkAcc) (url : String) : LinkAcc :=
  if List.isSuffixOf domain.data (urlNetloc url).data && !st.seen.contains url then
    (if rstripSlash url ≠ rstripSlash base then
      LinkAcc.mk (url :: st.seen) (st.links ++ [url])
    else st)
  else st

/-- Accumulator state after all three strategies. -/
def stage3 (doc : HForest) (base : String) : LinkAcc :=
  (anchorUrls doc base).foldl (addSameSite base (urlNetloc base)) (stage2 doc base)

/-- Model of `extract_links` (src/univ_eloued_scraper.py:165): the ordered,
deduplicated article-link candidates discovered by the three strategies. -/
def extract_links (doc : HForest) (base_url : String) : List String :=
  (stage3 doc base_url).links

/-! ## `extract_article_data` -/

/-- One extracted Article Record, with fields `Title, Date, Description,
Link` (lowercased as Lean field names).  `date` is the serialized ISO date
or the empty string when no strategy resolved a date. -/
structure ArticleRecord where
  title : String
  date : String
  description : String
  link : String
deriving DecidableEq, Repr

/-- The `content_selectors` class names probed for a description paragraph
(src/univ_eloued_scraper.py:228). -/
def contentSelectors : List String :=
  ["entry-content", "post-content", "content", "td-post-content",
   "article-body", "article-content", "main-content"]

/-- The container loop of the description extraction: for each selector in
order, the first element with that class token; if it contains a paragraph,
its cleaned text is taken and the loop breaks (even when that text is
empty); a container without a paragraph falls through to the next
selector. -/
def containerLoop (doc : HForest) : List String → Option String
  | [] => none
  | sel :: rest =>
    match findFirst (classHasToken sel) doc with
    | some container =>
      (match findFirst (isElemTag "p") (childrenOf container) with
       | some p => some (clean_textS (String.mk (textN p)))
       | none => containerLoop doc rest)
    | none => containerLoop doc rest

/-- The Title extraction of `extract_article_data`
(src/univ_eloued_scraper.py:211): the first `h1`'s cleaned text; only when
the document has no `h1` at all, the page `title` tag's `.string`. -/
def titleOf (doc : HForest) : String :=
  match findFirst (isElemTag "h1") doc with
  | some h1 => clean_textS (String.mk (textN h1))
  | none =>
    match findFirst (isElemTag "title") doc with
    | some t => clean_text (tagString t)
    | none => ""

/-- The Description extraction (src/univ_eloued_scraper.py:219): meta
description if non-empty, else the container loop, else the first paragraph
anywhere; each stage runs only when the summary is still the empty
string. -/
def summaryOf (doc : HForest) : String :=
  let s1 :=
    match findFirst (fun n => isElemTag "meta" n && attrEq n "name" "description") doc with
    | some m =>
      (match getAttr m "content" with
       | some c => if c ≠ "" then clean_textS c else ""
       | none => "")
    | none => ""
  let s2 := if s1 ≠ "" then s1 else (containerLoop doc contentSelectors).getD ""
  if s2 ≠ "" then s2
  else
    match findFirst (isElemTag "p") doc with
    | some p => clean_textS (String.mk (textN p))
    | none => ""

/-- Model of `extract_article_data` (src/univ_eloued_scraper.py:206): build
the Article Record for one article page; a missing date yields the empty
string, never a substitute date. -/
def extract_article_data (doc : HForest) (article_url : String) : ArticleRecord :=
  ArticleRecord.mk (titleOf doc) ((extract_event_date doc).getD "")
    (summaryOf doc) article_url

/-! ## `find_next_page_url` -/

/-- The anchor text scan of `find_next_page_url`: the first anchor whose
stripped lowercased text contains `next` or a right-arrow glyph and whose
`href` is non-empty (Python truthiness). -/
def nextTextScan (cur : String) : List HNode → Option String
  | [] => none
  | link :: rest =>
    let t := (textStripN link).map lowerChar
    match getAttr link "href" with
    | some h =>
      if h ≠ "" && (containsSub "next".data t || containsSub ['→'] t) then
        some (urljoin cur h)
      else nextTextScan cur rest
    | none => nextTextScan cur rest

/-- Model of `find_next_page_url` (src/univ_eloued_scraper.py:259): an
anchor with one of the conventional `next` class names and a non-empty
`href` wins; otherwise the text scan; otherwise `None` (pagination
exhausted). -/
def find_next_page_url (doc : HForest) (current_url : String) : Option String :=
  let nextBtn :=
    findFirst
      (fun n => isElemTag "a" n &&
        (classHasToken "next" n || classHasToken "next-page" n ||
         classHasToken "pagination-next" n)) doc
  match nextBtn with
  | some btn =>
    (match getAttr btn "href" with
     | some h =>
       if h ≠ "" then some (urljoin current_url h)
       else nextTextScan current_url (findAllF (isElemTag "a") doc)
     | none => nextTextScan current_url (findAllF (isElemTag "a") doc))
  | none => nextTextScan current_url (findAllF (isElemTag "a") doc)

/-! ## The crawl orchestrator `scrape_activities`

The network is abstracted as a fetch oracle: `fetch url` is the parsed page
on success and `none` when `fetch_page` raises (network, timeout or HTTP
error).  The orchestrator state carries exactly the loop variables of
`scrape_activities`, plus the trace of listing URLs it attempted to fetch
(observable as the `Processing page` output of the source). -/

/-- The fetch oracle standing for `fetch_page` over a `requests.Session`. -/
structure FetchEnv where
  fetch : String → Option HForest

/-- The loop state of `scrape_activities`: `all_data`, `page_num`,
`current_url`, plus `halted` marking that the listing-level `except` broke
the loop, and the trace of attempted listing fetches. -/
structure CrawlState where
  allData : List ArticleRecord
  pageNum : Nat
  currentUrl : Option String
  halted : Bool
  fetchedListings : List String
deriving Repr

/-- The initial crawl state at `current_url = BASE_URL`. -/
def initCrawl (start : String) : CrawlState :=
  CrawlState.mk [] 0 (some start) false []

/-- The per-article loop (src/univ_eloued_scraper.py:313): each article is
fetched; on success its record is appended, a fetch failure skips that
article and the loop continues with the next URL. -/
def processArticles (env : FetchEnv) (acc : List ArticleRecord) :
    List String → List ArticleRecord
  | [] => acc
  | link :: rest =>
    match env.fetch link with
    | some adoc => processArticles env (acc ++ [extract_article_data adoc link]) rest
    | none => processArticles env acc rest

/-- One iteration of the listing loop (src/univ_eloued_scraper.py:293):
increment the page counter, fetch the listing page (a failure halts the
run), extract and process the article links, then follow the next-page
URL. -/
def processPage (env : FetchEnv) (st : CrawlState) (url : String) : CrawlState :=
  let st1 :=
    { st with pageNum := st.pageNum + 1,
              fetchedListings := st.fetchedListings ++ [url] }
  match env.fetch url with
  | none => { st1 with halted := true }
  | some doc =>
    let links := extract_links doc url
    let data := processArticles env st1.allData links
    let next := find_next_page_url doc url
    { st1 with allData := data, currentUrl := next }

/-- The `while` guard: a current URL exists and the page ceiling
(`MAX_PAGES`, `none` meaning unbounded) has not been reached. -/
def ceilingOk (maxPages : Option Nat) (pageNum : Nat) : Bool :=
  match maxPages with
  | none => true
  | some n => pageNum < n

/-- The listing loop of `scrape_activities`, fuel-indexed: the source's
`while` runs until the guard fails or the listing-level `except` fires; the
fuel bounds the number of iterations the model unfolds. -/
def scrapeLoop (env : FetchEnv) (maxPages : Option Nat) :
    Nat → CrawlState → CrawlState
  | 0, st => st
  | fuel + 1, st =>
    if st.halted then st
    else
      match st.currentUrl with
      | none => st
      | some url =>
        if ceilingOk maxPages st.pageNum then
          scrapeLoop env maxPages fuel (processPage env st url)
        else st

/-- Model of `scrape_activities` (src/univ_eloued_scraper.py:278) up to the
CSV write: the records the run hands to the sink, in discovery order.  The
write happens after the loop on both the normal and the halted path, so
partial results are retained. -/
def scrape_activities (env : FetchEnv) (maxPages : Option Nat) (fuel : Nat)
    (start : String) : List ArticleRecord :=
  (scrapeLoop env maxPages fuel (initCrawl start)).allData

/-! ## Concrete fixtures used by witnesses and counterexamples -/

/-- The configured `BASE_URL` of the scraper. -/
def baseUrl : String := "https://www.univ-eloued.dz/ar/"

/-- A listing page whose single `article` contains a link back to the base
URL itself. -/
def selfLinkListing : HForest := toForest
  [HNode.elem "article" []
    (toForest [HNode.elem "a" [("href", "https://www.univ-eloued.dz/ar/")]
      (toForest [HNode.text "self"])])]

/-- A listing page with one self link, one article link and one off-site
link, all bare anchors (exercising the same-site fallback only). -/
def mixedListing : HForest := toForest
  [HNode.elem "a" [("href", "/ar/")] (toForest [HNode.text "self"]),
   HNode.elem "a" [("href", "/ar/news/1")] (toForest [HNode.text "n1"]),
   HNode.elem "a" [("href", "https://other.example.com/x")] (toForest [HNode.text "ext"])]

/-- An article page whose `time` tag carries a machine-readable `datetime`
and a human-readable text that would parse to a different date. -/
def timeAttrDoc : HForest := toForest
  [HNode.elem "html" [] (toForest
    [HNode.elem "time" [("datetime", "2024-05-01")] (toForest [HNode.text "May 1st"]),
     HNode.elem "p" [] (toForest [HNode.text "March 3, 2020"])])]

/-- An article page whose only date-bearing element is marked via its `id`
attribute, with a date format the whole-page text patterns cannot find. -/
def idOnlyDateDoc : HForest := toForest
  [HNode.elem "div" [("id", "date")] (toForest [HNode.text "15/03/2024"])]

/-- The same page with the marker on the `class` attribute instead, as a
function of the element text. -/
def dateClassDoc (s : String) : HForest := toForest
  [HNode.elem "div" [("class", "date")] (toForest [HNode.text s])]

/-- An article page whose `h1` text is whitespace only while a non-empty
`title` element is present. -/
def emptyH1Doc : HForest := toForest
  [HNode.elem "head" [] (toForest
     [HNode.elem "title" [] (toForest [HNode.text "Page Title"])]),
   HNode.elem "h1" [] (toForest [HNode.text "  \n "])]

/-- A listing page whose `next` pagination anchor points back at the base
URL itself (a malformed, cyclic `next` target). -/
def cycDoc : HForest := toForest
  [HNode.elem "a" [("class", "next"), ("href", "https://www.univ-eloued.dz/ar/")]
    (toForest [HNode.text "Next"])]

/-- A fetch oracle serving the cyclic listing page for every URL. -/
def cycEnv : FetchEnv := FetchEnv.mk (fun _ => some cycDoc)

/-- A fetch oracle on which every fetch fails. -/
def failEnv : FetchEnv := FetchEnv.mk (fun _ => none)

/-- A minimal article page. -/
def dummyArticle : HForest := toForest
  [HNode.elem "p" [] (toForest [HNode.text "hello"])]

/-- A fetch oracle on which exactly the article URL `A2` fails. -/
def skipOneEnv : FetchEnv :=
  FetchEnv.mk (fun u => if u = "A2" then none else some dummyArticle)

/-! # Theorems -/

/-- C3: `DateResolver.resolve` (`parse_date_string`) returns the canonical
calendar date 2024-03-15 for the ISO, long-Latin, slash-numeric,
dash-numeric and Arabic-month spellings of that date. -/
theorem C3_canonical_date_formats :
    parse_date_string (some "2024-03-15") = some "2024-03-15" ∧
    parse_date_string (some "March 15, 2024") = some "2024-03-15" ∧
    parse_date_string (some "15/03/2024") = some "2024-03-15" ∧
    parse_date_string (some "15-03-2024") = some "2024-03-15" ∧
    parse_date_string (some "مارس 15, 2024") = some "2024-03-15" :=
  ⟨rfl, rfl, rfl, rfl, rfl⟩

/-- C5: `parse_date_string` is total on empty and absent input: both yield
`none` (in the embedding, totality itself is witnessed by `parse_date_string`
being a Lean function). -/
theorem C5_empty_and_absent_input :
    parse_date_string (some "") = none ∧ parse_date_string none = none :=
  ⟨rfl, rfl⟩

/-! ## Lemmas about whitespace collapsing and stripping (toward C6) -/

theorem collapseRuns_mem (p : Char → Bool) :
    ∀ (l : List Char) (b : Bool) {c : Char},
      c ∈ collapseRuns p l b → p c = false ∨ c = ' ' := by
  intro l
  induction l with
  | nil => intro b c h; simp [collapseRuns] at h
  | cons a t ih =>
    intro b c h
    cases hpa : p a with
    | true =>
      cases b with
      | true =>
        simp [collapseRuns, hpa] at h
        exact ih true h
      | false =>
        simp [collapseRuns, hpa] at h
        rcases h with h | h
        · right; exact h
        · exact ih true h
    | false =>
      simp [collapseRuns, hpa] at h
      rcases h with h | h
      · left; rw [h]; exact hpa
      · exact ih false h

theorem collapseRuns_head_true (p : Char → Bool) :
    ∀ (l : List Char) {c : Char},
      (collapseRuns p l true).head? = some c → p c = false := by
  intro l
  induction l with
  | nil => intro c h; simp [collapseRuns] at h
  | cons a t ih =>
    intro c h
    cases hpa : p a with
    | true =>
      simp [collapseRuns, hpa] at h
      exact ih h
    | false =>
      simp [collapseRuns, hpa] at h
      rw [← h]; exact hpa

theorem collapseRuns_chain (p : Char → Bool) (hp : p ' ' = true) :
    ∀ (l : List Char) (b : Bool),
      List.Chain' (fun x y => ¬(x = ' ' ∧ y = ' ')) (collapseRuns p l b) := by
  intro l
  induction l with
  | nil => intro b; simp [collapseRuns]
  | cons a t ih =>
    intro b
    cases hpa : p a with
    | true =>
      cases b with
      | true =>
        simp only [collapseRuns, hpa]
        simp only [if_true]
        exact ih true
      | false =>
        have hgoal : collapseRuns p (a :: t) false = ' ' :: collapseRuns p t true := by
          simp [collapseRuns, hpa]
        rw [hgoal, List.chain'_cons']
        refine ⟨?_, ih true⟩
        intro y hy hcon
        have hpy := collapseRuns_head_true p t hy
        rw [hcon.2, hp] at hpy
        exact Bool.true_eq_false.mp hpy
    | false =>
      have hgoal : collapseRuns p (a :: t) b = a :: collapseRuns p t false := by
        simp [collapseRuns, hpa]
      rw [hgoal, List.chain'_cons']
      refine ⟨?_, ih false⟩
      intro y _ hcon
      rw [hcon.1, hp] at hpa
      exact Bool.true_eq_false.mp hpa

theorem mem_dropWhileChar {p : Char → Bool} :
    ∀ {l : List Char} {c : Char}, c ∈ l.dropWhile p → c ∈ l := by
  intro l
  induction l with
  | nil => intro c h; simp [List.dropWhile] at h
  | cons a t ih =>
    intro c h
    cases hpa : p a with
    | true =>
      simp only [List.dropWhile, hpa] at h
      exact List.mem_cons_of_mem a (ih h)
    | false =>
      simp only [List.dropWhile, hpa] at h
      exact h

theorem mem_dropTrailing {p : Char → Bool} {l : List Char} {c : Char}
    (h : c ∈ dropTrailing p l) : c ∈ l := by
  unfold dropTrailing at h
  rw [List.mem_reverse] at h
  have := mem_dropWhileChar h
  rwa [List.mem_reverse] at this

theorem mem_stripChars {p : Char → Bool} {l : List Char} {c : Char}
    (h : c ∈ stripChars p l) : c ∈ l :=
  mem_dropWhileChar (mem_dropTrailing h)

theorem head_dropWhileChar {p : Char → Bool} :
    ∀ {l : List Char} {c : Char}, (l.dropWhile p).head? = some c → p c = false := by
  intro l
  induction l with
  | nil => intro c h; simp [List.dropWhile] at h
  | cons a t ih =>
    intro c h
    cases hpa : p a with
    | true =>
      simp only [List.dropWhile, hpa] at h
      exact ih h
    | false =>
      simp only [List.dropWhile, hpa, List.head?_cons, Option.some.injEq] at h
      rw [← h]; exact hpa

theorem dropTrailing_prefix (p : Char → Bool) (l : List Char) :
    dropTrailing p l <+: l := by
  obtain ⟨t, ht⟩ := List.dropWhile_suffix (l := l.reverse) p
  refine ⟨t.reverse, ?_⟩
  unfold dropTrailing
  rw [← List.reverse_append, ht, List.reverse_reverse]

theorem head_dropTrailing {p : Char → Bool} {l : List Char} {c : Char}
    (h : (dropTrailing p l).head? = some c) : l.head? = some c := by
  obtain ⟨t, ht⟩ := dropTrailing_prefix p l
  cases hd : dropTrailing p l with
  | nil => rw [hd] at h; simp at h
  | cons a tl =>
    rw [hd] at h
    simp only [List.head?_cons, Option.some.injEq] at h
    rw [hd] at ht
    rw [← ht]
    simp [h]

theorem chain_dropTrailing {R : Char → Char → Prop} {p : Char → Bool}
    {l : List Char} (h : List.Chain' R l) :
    List.Chain' R (dropTrailing p l) := by
  unfold dropTrailing
  have h1 : List.Chain' (flip R) l.reverse := List.chain'_reverse.mpr h
  have h2 : List.Chain' (flip R) (l.reverse.dropWhile p) :=
    h1.suffix (List.dropWhile_suffix p)
  exact List.chain'_reverse.mpr h2

theorem chain_stripChars {R : Char → Char → Prop} {p : Char → Bool}
    {l : List Char} (h : List.Chain' R l) :
    List.Chain' R (stripChars p l) :=
  chain_dropTrailing (h.suffix (List.dropWhile_suffix p))

theorem last_stripChars {p : Char → Bool} {l : List Char} {c : Char}
    (h : (stripChars p l).getLast? = some c) : p c = false := by
  unfold stripChars dropTrailing at h
  rw [List.getLast?_reverse] at h
  exact head_dropWhileChar h

theorem head_stripChars {p : Char → Bool} {l : List Char} {c : Char}
    (h : (stripChars p l).head? = some c) : p c = false :=
  head_dropWhileChar (head_dropTrailing h)

/-- C6: `clean_text` output never contains a tab, newline or carriage
return, never two consecutive spaces (stated as a chain condition over
adjacent characters), and never leading or trailing whitespace; empty or
absent input yields the empty string. -/
theorem C6_clean_text_normalized :
    ∀ s : Option String,
      (∀ c ∈ (clean_text s).data, c ≠ '\t' ∧ c ≠ '\n' ∧ c ≠ '\r') ∧
      List.Chain' (fun x y => ¬(x = ' ' ∧ y = ' ')) (clean_text s).data ∧
      (∀ c, (clean_text s).data.head? = some c → isPySpace c = false) ∧
      (∀ c, (clean_text s).data.getLast? = some c → isPySpace c = false) ∧
      ((s = none ∨ s = some "") → clean_text s = "") := by
  intro s
  match s with
  | none =>
    refine ⟨?_, ?_, ?_, ?_, ?_⟩ <;> simp [clean_text]
  | some str =>
    by_cases hstr : str = ""
    · subst hstr
      refine ⟨?_, ?_, ?_, ?_, ?_⟩ <;> simp [clean_text]
    · have hdata : (clean_text (some str)).data = cleanChars str.data := by
        simp [clean_text, hstr]
      rw [hdata]
      refine ⟨?_, ?_, ?_, ?_, ?_⟩
      · intro c hc
        rcases collapseRuns_mem isPySpace _ _ (mem_stripChars hc) with hps | hsp
        · refine ⟨?_, ?_, ?_⟩ <;> (rintro rfl; exact absurd hps (by decide))
        · subst hsp
          exact ⟨by decide, by decide, by decide⟩
      · exact chain_stripChars (collapseRuns_chain isPySpace rfl _ false)
      · intro c hc
        exact head_stripChars hc
      · intro c hc
        exact last_stripChars hc
      · rintro (h | h)
        · exact Option.noConfusion h
        · exact absurd (Option.some.inj h) hstr

/-- Witness for C6 at a concrete input containing tabs, newlines and
double spaces. -/
theorem C6_clean_text_normalized_witness :
    isPySpace 'a' = false ∧ ('a' ≠ '\t' ∧ 'a' ≠ '\n' ∧ 'a' ≠ '\r') :=
  ⟨(C6_clean_text_normalized (some "  a\t\nb  c  ")).2.2.1 'a' rfl,
   (C6_clean_text_normalized (some "  a\t\nb  c  ")).1 'a' (by decide)⟩

/-! ## Soundness of every date strategy (toward C4) -/

theorem mkValidDate_sound {y m d : Nat} {t : PyDate}
    (h : mkValidDate y m d = some t) :
    validDate t.year t.month t.day = true := by
  unfold mkValidDate at h
  split at h
  · cases h
    assumption
  · cases h

theorem strptimeDate_sound {fmt : String} {l : List Char} {t : PyDate}
    (h : strptimeDate fmt l = some t) :
    validDate t.year t.month t.day = true := by
  unfold strptimeDate at h
  cases ho : strptimeRaw fmt l with
  | none => rw [ho] at h; cases h
  | some x =>
    rw [ho] at h
    obtain ⟨y, m, d⟩ := x
    exact mkValidDate_sound h

theorem fromisoformatDate_sound {l : List Char} {t : PyDate}
    (h : fromisoformatDate l = some t) :
    validDate t.year t.month t.day = true := by
  unfold fromisoformatDate at h
  cases ho : isoRaw l with
  | none => rw [ho] at h; cases h
  | some x =>
    rw [ho] at h
    obtain ⟨y, m, d⟩ := x
    exact mkValidDate_sound h

theorem tryFormats_sound :
    ∀ (fs : List String) (l : List Char) {t : PyDate},
      tryFormats fs l = some t → validDate t.year t.month t.day = true := by
  intro fs
  induction fs with
  | nil => intro l t h; simp [tryFormats] at h
  | cons f rest ih =>
    intro l t h
    unfold tryFormats at h
    split at h
    · cases h
      exact strptimeDate_sound (by assumption)
    · exact ih l h

theorem parseDateStrategies_sound {s : List Char} {t : PyDate}
    (h : parseDateStrategies s = some t) :
    validDate t.year t.month t.day = true := by
  unfold parseDateStrategies at h
  split at h
  · cases h
    exact fromisoformatDate_sound (by assumption)
  · split at h
    · cases h
      exact tryFormats_sound formatStrings s (by assumption)
    · split at h
      · cases h
        rename_i harab
        cases ha : arabSearch s with
        | none => rw [ha] at harab; cases harab
        | some m =>
          rw [ha] at harab
          exact mkValidDate_sound harab
      · split at h
        · split at h
          · cases h
            exact strptimeDate_sound (by assumption)
          · exact strptimeDate_sound h
        · cases h

theorem parseDateCore_sound {l : List Char} {t : PyDate}
    (h : parseDateCore l = some t) :
    validDate t.year t.month t.day = true :=
  parseDateStrategies_sound h

/-- C4: every strategy of `parse_date_string` validates the parsed
day/month/year triple against the real calendar (whatever date comes out of
the cascade satisfies the `datetime` constructor's validity check); the
invalid combination `February 30, 2024` makes each strategy fail, and with
every strategy failed the function returns `none` (in the embedding,
returning rather than raising is witnessed by `parse_date_string` being a
total Lean function). -/
theorem C4_calendar_validation :
    (∀ (l : List Char) (t : PyDate),
        parseDateCore l = some t → validDate t.year t.month t.day = true) ∧
    parse_date_string (some "February 30, 2024") = none :=
  ⟨fun _ _ h => parseDateCore_sound h, rfl⟩

/-- Witness for C4: the validity guarantee applied at a concrete parse. -/
theorem C4_calendar_validation_witness : validDate 2024 3 15 = true :=
  C4_calendar_validation.1 "2024-03-15".data (PyDate.mk 2024 3 15) rfl

/-- C7: in `extract_event_date`, the first `time` element's machine-readable
`datetime` attribute takes precedence over its display text and over every
later strategy: whenever that attribute is non-empty and parses, its parse
is the extracted date, regardless of the rest of the page. -/
theorem C7_time_attr_precedence :
    ∀ (doc : HForest) (tt : HNode) (a r : String),
      findFirst (isElemTag "time") doc = some tt →
      getAttr tt "datetime" = some a →
      a ≠ "" →
      parse_date_string (some a) = some r →
      extract_event_date doc = some r := by
  intro doc tt a r h1 h2 h3 h4
  have ht : timeTagStrategy doc = some r := by
    unfold timeTagStrategy
    simp only [h1]
    simp only [h2]
    rw [if_pos h3]
    simp only [h4]
  unfold extract_event_date
  rw [ht]

/-- Witness for C7: the end-to-end scenario of the spec, an article page
with a `time` tag whose attribute says 2024-05-01 while its text and a
stray paragraph would parse differently. -/
theorem C7_time_attr_precedence_witness :
    extract_event_date timeAttrDoc = some "2024-05-01" :=
  C7_time_attr_precedence timeAttrDoc
    (HNode.elem "time" [("datetime", "2024-05-01")] (toForest [HNode.text "May 1st"]))
    "2024-05-01" "2024-05-01" rfl rfl (by decide) rfl

/-- C10: the page-title fallback for the Title field is consulted only when
the document has no `h1` element at all: an existing `h1` whose text
normalizes to empty makes the Title empty even when a non-empty `title`
element is present. -/
theorem C10_h1_shadows_title_fallback :
    ∀ (doc : HForest) (h1 : HNode) (url : String),
      findFirst (isElemTag "h1") doc = some h1 →
      clean_textS (String.mk (textN h1)) = "" →
      (extract_article_data doc url).title = "" := by
  intro doc h1 url hf hc
  show titleOf doc = ""
  unfold titleOf
  rw [hf]
  exact hc

/-- Witness for C10: a page with a whitespace-only `h1` and a non-empty
`title` still gets an empty Title. -/
theorem C10_h1_shadows_title_fallback_witness :
    (extract_article_data emptyH1Doc "https://www.univ-eloued.dz/ar/x").title = "" :=
  C10_h1_shadows_title_fallback emptyH1Doc
    (HNode.elem "h1" [] (toForest [HNode.text "  \n "]))
    "https://www.univ-eloued.dz/ar/x" rfl rfl

/-- C8 counterexample: the date-marker heuristic of `extract_event_date`
matches only the `class` attribute, never `id`.  On a page whose only
date-bearing element is marked via `id="date"` and carries the parseable
text `15/03/2024` (a format the whole-page text patterns cannot find),
extraction returns `none` instead of the date the claim promises. -/
theorem C8_id_attribute_counterexample :
    extract_event_date idOnlyDateDoc = none ∧
    parse_date_string (some "15/03/2024") = some "2024-03-15" :=
  ⟨rfl, rfl⟩

/-- C8 amended: strategy 4 of the claim considers elements whose `class`
attribute (only — `id` is not consulted) matches the date pattern: for a
page whose only date-bearing element carries a matching class and whose
cleaned text parses as a date, extraction yields that date. -/
theorem C8_date_class_matched :
    ∀ (s r : String),
      parse_date_string (some (clean_textS s)) = some r →
      extract_event_date (dateClassDoc s) = some r := by
  intro s r h
  have hs : String.mk (textN (HNode.elem "div" [("class", "date")]
      (toForest [HNode.text s]))) = s := by
    cases s with
    | mk l => exact congrArg String.mk (List.append_nil l)
  have htime : timeTagStrategy (dateClassDoc s) = none := rfl
  have hmeta : metaLoop (dateClassDoc s) metaNames = none := rfl
  have hfind : findAllF hasDateClass (dateClassDoc s) =
      [HNode.elem "div" [("class", "date")] (toForest [HNode.text s])] := rfl
  have hclass : classLoop (findAllF hasDateClass (dateClassDoc s)) = some r := by
    rw [hfind]
    unfold classLoop
    rw [hs, h]
  unfold extract_event_date
  simp only [htime, hmeta, hclass]

/-- Witness for C8 (amended form) at the concrete page with
`class="date"` and text `15/03/2024`. -/
theorem C8_date_class_matched_witness :
    extract_event_date (dateClassDoc "15/03/2024") = some "2024-03-15" :=
  C8_date_class_matched "15/03/2024" "2024-03-15" rfl

/-! ## The `seen` invariant of `extract_links` (toward C1) -/

theorem addIfNew_inv {st : LinkAcc} {u : String}
    (h1 : st.links.Nodup) (h2 : ∀ x ∈ st.links, x ∈ st.seen) :
    (addIfNew st u).links.Nodup ∧
      (∀ x ∈ (addIfNew st u).links, x ∈ (addIfNew st u).seen) := by
  unfold addIfNew
  split
  · exact ⟨h1, h2⟩
  · rename_i hc
    constructor
    · refine List.Nodup.append h1 (List.nodup_singleton u) ?_
      intro x hx hxu
      rw [List.mem_singleton] at hxu
      subst hxu
      exact hc (List.elem_iff.mpr (h2 x hx))
    · intro x hx
      rw [List.mem_append] at hx
      rcases hx with hx | hx
      · exact List.mem_cons_of_mem u (h2 x hx)
      · rw [List.mem_singleton] at hx
        subst hx
        exact List.mem_cons_self _ _

theorem foldl_addIfNew_inv :
    ∀ (urls : List String) (st : LinkAcc),
      st.links.Nodup → (∀ x ∈ st.links, x ∈ st.seen) →
      (urls.foldl addIfNew st).links.Nodup ∧
        (∀ x ∈ (urls.foldl addIfNew st).links, x ∈ (urls.foldl addIfNew st).seen) := by
  intro urls
  induction urls with
  | nil => intro st h1 h2; exact ⟨h1, h2⟩
  | cons u rest ih =>
    intro st h1 h2
    have h := addIfNew_inv (u := u) h1 h2
    exact ih _ h.1 h.2

theorem addSameSite_inv (base domain : String) {st : LinkAcc} (u : String)
    (h1 : st.links.Nodup) (h2 : ∀ x ∈ st.links, x ∈ st.seen) :
    (addSameSite base domain st u).links.Nodup ∧
      (∀ x ∈ (addSameSite base domain st u).links,
        x ∈ (addSameSite base domain st u).seen) := by
  unfold addSameSite
  split
  · rename_i hcond
    rw [Bool.and_eq_true] at hcond
    have hc : ¬(st.seen.contains u = true) := by
      intro hmem
      rw [hmem] at hcond
      simp at hcond
    split
    · constructor
      · refine List.Nodup.append h1 (List.nodup_singleton u) ?_
        intro x hx hxu
        rw [List.mem_singleton] at hxu
        subst hxu
        exact hc (List.elem_iff.mpr (h2 x hx))
      · intro x hx
        rw [List.mem_append] at hx
        rcases hx with hx | hx
        · exact List.mem_cons_of_mem u (h2 x hx)
        · rw [List.mem_singleton] at hx
          subst hx
          exact List.mem_cons_self _ _
    · exact ⟨h1, h2⟩
  · exact ⟨h1, h2⟩

theorem foldl_addSameSite_inv (base domain : String) :
    ∀ (urls : List String) (st : LinkAcc),
      st.links.Nodup → (∀ x ∈ st.links, x ∈ st.seen) →
      (urls.foldl (addSameSite base domain) st).links.Nodup ∧
        (∀ x ∈ (urls.foldl (addSameSite base domain) st).links,
          x ∈ (urls.foldl (addSameSite base domain) st).seen) := by
  intro urls
  induction urls with
  | nil => intro st h1 h2; exact ⟨h1, h2⟩
  | cons u rest ih =>
    intro st h1 h2
    have h := addSameSite_inv base domain u h1 h2
    exact ih _ h.1 h.2

theorem addSameSite_links_sub {base domain : String} {st : LinkAcc} {u x : String}
    (hx : x ∈ (addSameSite base domain st u).links) :
    x ∈ st.links ∨ rstripSlash x ≠ rstripSlash base := by
  unfold addSameSite at hx
  split at hx
  · split at hx
    · rename_i hr
      rcases List.mem_append.mp hx with hx | hx
      · exact Or.inl hx
      · rw [List.mem_singleton] at hx
        subst hx
        exact Or.inr hr
    · exact Or.inl hx
  · exact Or.inl hx

theorem foldl_addSameSite_sub {base domain : String} :
    ∀ (urls : List String) (st : LinkAcc) {x : String},
      x ∈ (urls.foldl (addSameSite base domain) st).links →
      x ∈ st.links ∨ rstripSlash x ≠ rstripSlash base := by
  intro urls
  induction urls with
  | nil => intro st x hx; exact Or.inl hx
  | cons u rest ih =>
    intro st x hx
    rcases ih _ hx with hx2 | hx2
    · exact addSameSite_links_sub hx2
    · exact Or.inr hx2

/-- C1 amended: `extract_links` never returns duplicate URLs, and the
base-URL exclusion holds for every URL contributed by the same-site
fallback (strategy 3): any returned URL either was already contributed by
the article-container or heading strategies, or differs from the base URL
after trailing-slash normalization.  (The counterexample shows the
exclusion does not extend to strategies 1 and 2 themselves.) -/
theorem C1_discover_nodup_and_fallback_exclusion :
    ∀ (doc : HForest) (base : String),
      (extract_links doc base).Nodup ∧
      (∀ u ∈ extract_links doc base,
        u ∈ (stage2 doc base).links ∨ rstripSlash u ≠ rstripSlash base) := by
  intro doc base
  have hs1 := foldl_addIfNew_inv (strategy1Urls doc base) (LinkAcc.mk [] [])
    List.nodup_nil (by intro x hx; cases hx)
  have hs2 := foldl_addIfNew_inv (strategy2Urls doc base) (stage1 doc base) hs1.1 hs1.2
  have hs3 := foldl_addSameSite_inv base (urlNetloc base)
    (anchorUrls doc base) (stage2 doc base) hs2.1 hs2.2
  exact ⟨hs3.1, fun u hu => foldl_addSameSite_sub (anchorUrls doc base) (stage2 doc base) hu⟩

/-- C1 counterexample: the claim's base-URL exclusion fails for the
article-container strategy.  On a listing whose `article` links back to the
base URL, `extract_links` returns the base URL itself, whose trailing-slash
normalization trivially equals the normalized base. -/
theorem C1_base_url_returned_counterexample :
    baseUrl ∈ extract_links selfLinkListing baseUrl ∧
    rstripSlash baseUrl = rstripSlash baseUrl := by
  constructor
  · rw [show extract_links selfLinkListing baseUrl = [baseUrl] from rfl]
    exact List.mem_singleton.mpr rfl
  · rfl

/-- Witness for C1 (amended form) on a concrete mixed listing page. -/
theorem C1_discover_nodup_witness :
    (extract_links mixedListing baseUrl).Nodup ∧
    ("https://www.univ-eloued.dz/ar/news/1" ∈ (stage2 mixedListing baseUrl).links ∨
      rstripSlash "https://www.univ-eloued.dz/ar/news/1" ≠ rstripSlash baseUrl) :=
  ⟨(C1_discover_nodup_and_fallback_exclusion mixedListing baseUrl).1,
   (C1_discover_nodup_and_fallback_exclusion mixedListing baseUrl).2
     "https://www.univ-eloued.dz/ar/news/1" (by decide)⟩

/-! ## Orchestrator lemmas (toward C2 and C9) -/

theorem scrapeLoop_halted {env : FetchEnv} {mp : Option Nat} {fuel : Nat}
    {st : CrawlState} (h : st.halted = true) :
    scrapeLoop env mp fuel st = st := by
  cases fuel with
  | zero => rfl
  | succ f =>
    unfold scrapeLoop
    rw [if_pos h]

theorem processPage_cyc (st : CrawlState) :
    processPage cycEnv st baseUrl =
      CrawlState.mk st.allData (st.pageNum + 1) (some baseUrl) st.halted
        (st.fetchedListings ++ [baseUrl]) := rfl

theorem scrapeLoop_cyc :
    ∀ (k : Nat) (st : CrawlState),
      st.halted = false → st.currentUrl = some baseUrl →
      (scrapeLoop cycEnv (some (st.pageNum + k)) k st).fetchedListings =
        st.fetchedListings ++ List.replicate k baseUrl := by
  intro k
  induction k with
  | zero => intro st h1 h2; simp [scrapeLoop]
  | succ n ih =>
    intro st h1 h2
    unfold scrapeLoop
    rw [if_neg (by simp [h1])]
    have hceil : ceilingOk (some (st.pageNum + (n + 1))) st.pageNum = true := by
      simp [ceilingOk]
    simp only [h2, hceil, if_true]
    rw [processPage_cyc]
    have harith : st.pageNum + (n + 1) = st.pageNum + 1 + n := by omega
    rw [harith]
    have hrec := ih (CrawlState.mk st.allData (st.pageNum + 1) (some baseUrl)
      st.halted (st.fetchedListings ++ [baseUrl])) h1 rfl
    rw [hrec]
    simp [List.replicate_succ]

/-- C2 counterexample: with a listing page whose `next` link points back at
the current listing URL, the orchestrator fetches the same listing URL
twice (here under a 2-page ceiling): there is no visited-URL guard. -/
theorem C2_refetches_visited_listing_counterexample :
    (scrapeLoop cycEnv (some 2) 2 (initCrawl baseUrl)).fetchedListings =
      [baseUrl, baseUrl] := rfl

/-- C2 amended: the orchestrator keeps no record of visited listing URLs
and treats a revisit like any fresh page; termination comes only from the
page ceiling (or a missing next link): under a cyclic `next` link the
listing URL is re-fetched once per allowed page, `n` times for ceiling
`n`, so with no ceiling configured a cyclic `next` link loops without
bound. -/
theorem C2_no_visited_guard :
    ∀ n : Nat,
      (scrapeLoop cycEnv (some n) n (initCrawl baseUrl)).fetchedListings =
        List.replicate n baseUrl := by
  intro n
  have h := scrapeLoop_cyc n (initCrawl baseUrl) rfl rfl
  simpa [initCrawl] using h

theorem processArticles_filterMap (env : FetchEnv) :
    ∀ (links : List String) (acc : List ArticleRecord),
      processArticles env acc links =
        acc ++ links.filterMap
          (fun l => (env.fetch l).map fun d => extract_article_data d l) := by
  intro links
  induction links with
  | nil => intro acc; simp [processArticles]
  | cons l rest ih =>
    intro acc
    unfold processArticles
    cases hf : env.fetch l with
    | some d =>
      simp only [hf]
      rw [ih]
      simp [List.filterMap_cons, hf]
    | none =>
      simp only [hf]
      rw [ih]
      simp [List.filterMap_cons, hf]

/-- C9: a fetch failure on a listing page halts the crawl run after that
one failed attempt while retaining the records collected so far (which the
run then writes to the sink), whereas per-article fetch failures only skip
that article: the records produced from a link list are exactly those of
the links whose fetch succeeded, in order. -/
theorem C9_fetch_failure_policy :
    (∀ (env : FetchEnv) (mp : Option Nat) (fuel : Nat) (st : CrawlState) (url : String),
        st.currentUrl = some url → st.halted = false →
        ceilingOk mp st.pageNum = true → env.fetch url = none →
        (scrapeLoop env mp (fuel + 1) st).allData = st.allData ∧
        (scrapeLoop env mp (fuel + 1) st).fetchedListings =
          st.fetchedListings ++ [url]) ∧
    (∀ (env : FetchEnv) (links : List String) (acc : List ArticleRecord),
        processArticles env acc links =
          acc ++ links.filterMap
            (fun l => (env.fetch l).map fun d => extract_article_data d l)) := by
  constructor
  · intro env mp fuel st url hcur hhalt hceil hfetch
    obtain ⟨ad, pn, cu, ha, fl⟩ := st
    simp only at hcur hhalt hceil
    subst hcur
    subst hhalt
    have hstep : scrapeLoop env mp (fuel + 1)
        (CrawlState.mk ad pn (some url) false fl) =
        scrapeLoop env mp fuel
          (processPage env (CrawlState.mk ad pn (some url) false fl) url) := by
      conv_lhs => unfold scrapeLoop
      simp [hceil]
    have hproc : processPage env (CrawlState.mk ad pn (some url) false fl) url =
        CrawlState.mk ad (pn + 1) (some url) true (fl ++ [url]) := by
      unfold processPage
      simp only [hfetch]
    rw [hstep, hproc, scrapeLoop_halted rfl]
    exact ⟨rfl, rfl⟩
  · exact fun env links acc => processArticles_filterMap env links acc

/-- Witness for C9: a run whose first listing fetch fails ends with no
records and exactly one attempted listing fetch; an article list whose
middle fetch fails yields the records of the two surviving articles. -/
theorem C9_fetch_failure_policy_witness :
    ((scrapeLoop failEnv (some 5) 5 (initCrawl baseUrl)).allData = [] ∧
     (scrapeLoop failEnv (some 5) 5 (initCrawl baseUrl)).fetchedListings = [baseUrl]) ∧
    processArticles skipOneEnv [] ["A1", "A2", "A3"] =
      [] ++ ["A1", "A2", "A3"].filterMap
        (fun l => (skipOneEnv.fetch l).map fun d => extract_article_data d l) :=
  ⟨C9_fetch_failure_policy.1 failEnv (some 5) 4 (initCrawl baseUrl) baseUrl rfl rfl rfl rfl,
   C9_fetch_failure_policy.2 skipOneEnv ["A1", "A2", "A3"] []⟩
